import Mathlib

/-
Shallow embedding of the tensorage repository (files neurons/validator.py,
neurons/miner.py, neurons/allocate.py, neurons/test.py, neurons/utils.py).
Machine integers are modelled as Int or Nat, Python floats as exact rationals,
SQLite tables as lists of rows, and the SHA-256 function as an abstract
parameter where a claim needs it.
-/

/-- Python int() applied to a rational value: truncation toward zero. -/
def py_int (q : ℚ) : ℤ := if 0 ≤ q then ⌊q⌋ else ⌈q⌉

/-- Modelled from the spec: utils.validate_min_max_range is imported by
neurons/validator.py but its definition is not under src/; the spec and the
claims describe it as clamping the value into the closed range between the
configured minimum and maximum chunk counts. -/
def validate_min_max_range (v lo hi : ℤ) : ℤ := max lo (min v hi)

/-- CHUNK_SIZE, neurons/validator.py line 47 and neurons/allocate.py line 37. -/
def CHUNK_SIZE : ℤ := 2 ^ 22

/-- DEFAULT_N_CHUNKS, neurons/validator.py line 48. -/
def DEFAULT_N_CHUNKS : ℤ := 25600

/-- Default of the miner_min_chunks argument, neurons/validator.py line 68. -/
def MINER_MIN_CHUNKS : ℤ := 256

/-- Default of the miner_max_chunks argument, neurons/validator.py line 73. -/
def MINER_MAX_CHUNKS : ℤ := 2560000

/-- FAILED_KEY, neurons/miner.py line 36; defined there and never used. -/
def FAILED_KEY : ℤ := -1

/-- The pair of estimates the validator keeps for miner i:
verified is the n_chunks field of the record in verified_allocations and
next the n_chunks field of the record in next_allocations. -/
structure MinerAlloc where
  verified : ℤ
  next : ℤ
deriving DecidableEq, Repr

/-- Outcome of one Retrieve query inside validate_miners: the miner answered
None, answered with text of the wrong hash, or answered with the right hash. -/
inductive QueryOutcome
  | noResponse
  | hashMismatch
  | hashMatch
deriving DecidableEq, Repr

/-- Classification of the miner reply performed by validate_miners
(neurons/validator.py lines 348 and 366-369): a missing reply takes the
no-response branch, otherwise the SHA-256 of the returned text is compared
with the locally stored hash. -/
def query_outcome (sha : List Char → List Char) (expected : List Char) :
    Option (List Char) → QueryOutcome
  | none => .noResponse
  | some t => if sha t = expected then .hashMatch else .hashMismatch

/-- One update of the pair of estimates for miner i performed by
validate_miners (neurons/validator.py lines 348-397), by query outcome.
On no response: next is set to the clamped truncation of 0.9 times next, then
verified to the minimum of the new next and the old verified.
On a correct hash: verified is set to the old next, then next to the clamped
truncation of 1.1 times the old next.
On a wrong hash: same updates as on no response. -/
def validate_miners_update (lo hi : ℤ) (s : MinerAlloc) :
    QueryOutcome → MinerAlloc
  | .noResponse =>
    let n := validate_min_max_range (py_int ((s.next : ℚ) * (9 / 10))) lo hi
    { verified := min n s.verified, next := n }
  | .hashMatch =>
    { verified := s.next
      next := validate_min_max_range (py_int ((s.next : ℚ) * (11 / 10))) lo hi }
  | .hashMismatch =>
    let n := validate_min_max_range (py_int ((s.next : ℚ) * (9 / 10))) lo hi
    { verified := min n s.verified, next := n }

/-- Lower bound of the random.randint call that samples the chunk id
(neurons/validator.py lines 313-321): the truncated 0.8 fold of next when
verified has caught up with next, and verified otherwise. -/
def chunk_low (s : MinerAlloc) : ℤ :=
  if s.verified ≥ s.next then py_int ((s.next : ℚ) * (8 / 10)) else s.verified

/-- Upper bound of the same random.randint call: next minus one. -/
def chunk_high (s : MinerAlloc) : ℤ := s.next - 1

/-- A chunk id is a possible sample iff it lies in the inclusive randint
range of validate_miners. -/
def possible_chunk (s : MinerAlloc) (c : ℤ) : Prop :=
  chunk_low s ≤ c ∧ c ≤ chunk_high s

instance (s : MinerAlloc) (c : ℤ) : Decidable (possible_chunk s c) := by
  unfold possible_chunk
  infer_instance

/-- The loop invariant on the estimate pair of one miner: verified never
exceeds next and next stays inside the configured range. -/
def alloc_invariant (lo hi : ℤ) (s : MinerAlloc) : Prop :=
  s.verified ≤ s.next ∧ lo ≤ s.next ∧ s.next ≤ hi

/-- One record of the pickled verified_allocations list. -/
structure PersistedAlloc where
  miner : String
  n_chunks : ℤ
deriving DecidableEq, Repr

/-- Lookup of the persisted record at startup (neurons/validator.py lines
224-229): the first record whose miner field equals the hotkey, else 0. -/
def old_n_chunks (old : List PersistedAlloc) (hotkey : String) : ℤ :=
  match old.find? (fun a => a.miner == hotkey) with
  | some a => a.n_chunks
  | none => 0

/-- The n_chunks value restored for a hotkey at startup (neurons/validator.py
lines 231-250): the persisted value when present and nonzero under Python
truthiness, else DEFAULT_N_CHUNKS, clamped into the configured range. -/
def restore_n_chunks (old : List PersistedAlloc) (hotkey : String)
    (lo hi : ℤ) : ℤ :=
  let n := old_n_chunks old hotkey
  validate_min_max_range (if n = 0 then DEFAULT_N_CHUNKS else n) lo hi

/-- One record of the in-memory verified_allocations list at scoring time. -/
structure VerifiedAlloc where
  miner : String
  n_chunks : ℤ
deriving DecidableEq, Repr

/-- The EMA coefficient, neurons/validator.py line 199. -/
def ema_alpha : ℚ := 9 / 10

/-- Score contribution of a hotkey (neurons/validator.py lines 419-429):
the n_chunks field of the first verified allocation whose miner field equals
the hotkey, or 0 on StopIteration. -/
def allocation_score (allocs : List VerifiedAlloc) (hotkey : String) : ℤ :=
  match allocs.find? (fun a => a.miner == hotkey) with
  | some a => a.n_chunks
  | none => 0

/-- One scoring pass (neurons/validator.py line 430): pointwise exponential
moving average over the uid axis, hotkey i being the axon hotkey of uid i. -/
def update_scores_pass (scores : List ℚ) (hotkeys : List String)
    (allocs : List VerifiedAlloc) : List ℚ :=
  (scores.zip hotkeys).map fun p =>
    ema_alpha * p.1 + (1 - ema_alpha) * (allocation_score allocs p.2 : ℚ)

/-- The weight vector emitted by update_scores (neurons/validator.py line
255): torch normalize with p equal 1 divides by the maximum of the L1 norm
and the torch default eps of ten to the minus twelfth. -/
def normalize_l1 (xs : List ℚ) : List ℚ :=
  let d := max (xs.map (fun x => |x|)).sum (1 / 10 ^ 12)
  xs.map fun x => x / d

/-- The peer directory (metagraph): the ordered hotkey list plus the role
bit per hotkey. -/
structure PeerDirectory where
  hotkeys : List String
  validator_bits : String → Bool

/-- Modelled from the spec: utils.is_validator is imported by
neurons/miner.py but missing from src/neurons/utils.py; per the spec it tests
whether the hotkey carries the auditor (validator) role bit in the current
peer directory. -/
def is_validator (mg : PeerDirectory) (hotkey : String) : Bool :=
  mg.validator_bits hotkey

/-- The blacklist check of neurons/miner.py (lines 292-309): unregistered
hotkeys and hotkeys without the validator role bit are refused, each with its
stable reason string. -/
def blacklist (mg : PeerDirectory) (caller : String) : Bool × String :=
  if caller ∉ mg.hotkeys then (true, "Unrecognized hotkey")
  else if is_validator mg caller = false then (true, "Non-validator hotkey")
  else (false, "Hotkey recognized!")

/-- The ping handler of neurons/miner.py (lines 203-214): it never consults
the blacklist and answers every caller with role and version. -/
def ping_handler (version : String) (_mg : PeerDirectory)
    (_caller : String) : Option String :=
  some ("miner-" ++ version)

/-- One row of the per-pair SQLite table, id being the list index. -/
structure DBRow where
  data : String
  hash : String
deriving DecidableEq, Repr

/-- The retrieve handler of neurons/miner.py (lines 216-260): blacklisted
callers get no answer; otherwise the data column of row key, the inner None
standing for a missing row. -/
def retrieve_handler (mg : PeerDirectory) (caller : String)
    (db : List DBRow) (key : ℕ) : Option (Option String) :=
  if (blacklist mg caller).1 then none
  else some ((db.get? key).map DBRow.data)

/-- The try block of the store handler of neurons/miner.py (lines 276-282).
It evaluates hash_data applied to the encoded payload while building the
UPDATE statement, but hash_data is neither defined in miner.py nor among its
imports (line 34 imports only check_version and is_validator from utils), so
every call raises NameError before any database write happens. -/
def store_try_body (_db : List DBRow) (_key : ℕ) (_data : String) :
    Except String (List DBRow) :=
  Except.error "NameError: name hash_data is not defined"

/-- The store handler of neurons/miner.py (lines 262-289): blacklisted
callers get no answer; otherwise the try body runs, its exception is
swallowed by the except clause, and the handler returns the synapse as an
acknowledgement carrying the requested key either way. -/
def store_handler (mg : PeerDirectory) (caller : String) (db : List DBRow)
    (key : ℕ) (data : String) : List DBRow × Option ℤ :=
  if (blacklist mg caller).1 then (db, none)
  else
    match store_try_body db key data with
    | Except.ok db2 => (db2, some (key : ℤ))
    | Except.error _ => (db, some (key : ℤ))

/-- One allocation record built by allocate.allocate. -/
structure MinerAllocRecord where
  db_path : String
  own_hotkey : String
  hotkey : String
  n_chunks : ℤ
deriving DecidableEq, Repr

instance {ε α : Type} [DecidableEq ε] [DecidableEq α] :
    DecidableEq (Except ε α) := fun a b =>
  match a, b with
  | .ok x, .ok y =>
    if h : x = y then isTrue (by rw [h])
    else isFalse (by intro hc; cases hc; exact h rfl)
  | .error x, .error y =>
    if h : x = y then isTrue (by rw [h])
    else isFalse (by intro hc; cases hc; exact h rfl)
  | .ok _, .error _ => isFalse (by intro hc; cases hc)
  | .error _, .ok _ => isFalse (by intro hc; cases hc)

/-- The data path of allocate.allocate (neurons/allocate.py lines 129-193):
available is the free byte count reported by statvfs for the DB directory and
already the byte total of the files present there. The call fails with the
insufficient space error iff the desired byte count minus already exceeds
available; otherwise every hotkey of the metagraph gets one record whose
chunk count is the truncated quotient of the per-hotkey share by CHUNK_SIZE,
floored at one. -/
def allocate (available already : ℤ) (size_in_gb : ℚ)
    (wallet_db_path own_hotkey : String) (hotkeys : List String) :
    Except String (List MinerAllocRecord) :=
  if size_in_gb * 1024 * 1024 * 1024 - (already : ℚ) ≤ (available : ℚ) then
    Except.ok (hotkeys.map fun hk =>
      { db_path := wallet_db_path ++ "/DB-" ++ own_hotkey ++ "-" ++ hk
        own_hotkey := own_hotkey
        hotkey := hk
        n_chunks := max (py_int (size_in_gb * 1024 * 1024 * 1024 /
          (hotkeys.length : ℚ) / ((CHUNK_SIZE : ℤ) : ℚ))) 1 })
  else
    Except.error "Not enough space"

/-- Modelled from the spec: the Rust generator binary storer_db_project
(directory neurons/generate_db) is not under src/. Per the spec its PRNG seed
is a pure function of the concatenation of the two peer ids, the per-chunk
content is a PRF of the seed and the chunk id, and the hash column holds the
SHA-256 of the textual chunk; the binary is abstracted as such a pair of pure
functions, quantified over in the theorems. -/
structure GenBinary where
  prf : String → ℕ → String
  sha : String → String

/-- The table name passed by run_rust_generate (neurons/allocate.py line
240): the owner hotkey concatenated with the other hotkey; per the spec this
determines the generator seed, while the db_path argument does not influence
the generated contents. -/
def run_rust_generate_table_name (a : MinerAllocRecord) : String :=
  a.own_hotkey ++ a.hotkey

/-- The rows produced by one generator invocation for an allocation record:
id, data as PRF of seed and id, and hash as SHA-256 of the data. -/
def generate_rows (g : GenBinary) (a : MinerAllocRecord) :
    List (ℕ × String × String) :=
  (List.range a.n_chunks.toNat).map fun i =>
    (i, g.prf (run_rust_generate_table_name a) i,
      g.sha (g.prf (run_rust_generate_table_name a) i))

/-- The hash column of one generator invocation, in row order. -/
def hash_column (g : GenBinary) (a : MinerAllocRecord) : List String :=
  (generate_rows g a).map fun r => r.2.2

/-- The quote character, code point 39. -/
def quote_char : Char := Char.ofNat 39

/-- The backslash character, code point 92. -/
def backslash_char : Char := Char.ofNat 92

/-- Lowercase hex digit of a value below 16, as produced by the Python 02x
format: code points 48 to 57 for digits, 97 to 102 for letters. -/
def hex_digit (n : ℕ) : Char :=
  if n < 10 then Char.ofNat (48 + n) else Char.ofNat (87 + n)

/-- The four characters contributed by one byte on the store path
(neurons/test.py line 204): backslash, x, and the two hex digits. -/
def encode_byte (b : Fin 256) : List Char :=
  [backslash_char, 'x', hex_digit (b.val / 16), hex_digit (b.val % 16)]

/-- The textual encoding of one chunk on the store path (neurons/test.py
lines 204-207): the letter b, a quote, the per-byte hex pieces, and a
closing quote. -/
def encode_chunk (chunk : List (Fin 256)) : List Char :=
  'b' :: quote_char :: ((chunk.map encode_byte).flatten ++ [quote_char])

/-- Python split on the quote character taken at index 1 (neurons/test.py
line 184): the text after the first quote and before the next one. -/
def between_quotes (s : List Char) : List Char :=
  ((s.dropWhile fun c => c != quote_char).drop 1).takeWhile
    fun c => c != quote_char

/-- The character filter of the retrieve path (neurons/test.py line 185):
only hexadecimal characters of either case are kept. -/
def is_hex_char (c : Char) : Bool :=
  "0123456789abcdefABCDEF".toList.contains c

/-- The value of a hex digit as parsed by bytes.fromhex, case insensitive. -/
def hex_val (c : Char) : Option ℕ :=
  if 48 ≤ c.toNat ∧ c.toNat ≤ 57 then some (c.toNat - 48)
  else if 97 ≤ c.toNat ∧ c.toNat ≤ 102 then some (c.toNat - 87)
  else if 65 ≤ c.toNat ∧ c.toNat ≤ 70 then some (c.toNat - 55)
  else none

/-- bytes.fromhex (neurons/test.py line 187): parse pairs of hex digits into
bytes, failing on odd length or a non-hex character. -/
def from_hex : List Char → Option (List (Fin 256))
  | [] => some []
  | [_] => none
  | c1 :: c2 :: rest =>
    match hex_val c1, hex_val c2, from_hex rest with
    | some v1, some v2, some bs =>
      if h : 16 * v1 + v2 < 256 then some (⟨16 * v1 + v2, h⟩ :: bs) else none
    | _, _, _ => none

/-- The decoding of the retrieve path (neurons/test.py lines 184-187): take
the text between the quotes, keep only hex characters, parse back to bytes. -/
def decode_chunk (s : List Char) : Option (List (Fin 256)) :=
  from_hex ((between_quotes s).filter is_hex_char)

/-- Recursion core of the store-path chunking, fueled by the byte count so
that the recursion is structural: while bytes remain, emit the next window of
cs bytes and continue on the rest. -/
def chunks_go (cs : ℕ) : ℕ → List (Fin 256) → List (List (Fin 256))
  | 0, _ => []
  | _, [] => []
  | Nat.succ fuel, b :: bs =>
    (b :: bs).take cs :: chunks_go cs fuel ((b :: bs).drop cs)

/-- The chunking of the store path (neurons/test.py lines 199-207): the file
is read in windows of chunk_size bytes until the read comes back empty; a
read of zero bytes comes back empty at once, producing no chunks. -/
def split_chunks (cs : ℕ) (bs : List (Fin 256)) : List (List (Fin 256)) :=
  if cs = 0 then [] else chunks_go cs bs.length bs

/-
Helper lemmas.
-/

/-- Evaluation rule for py_int on a nonnegative rational pinned between an
integer and its successor. -/
theorem py_int_eval (q : ℚ) (z : ℤ) (h0 : 0 ≤ q) (h1 : (z : ℚ) ≤ q)
    (h2 : q < z + 1) : py_int q = z := by
  rw [py_int, if_pos h0]
  exact Int.floor_eq_iff.mpr ⟨h1, h2⟩

/-- py_int of a nonnegative rational is nonnegative. -/
theorem py_int_nonneg (q : ℚ) (h : 0 ≤ q) : 0 ≤ py_int q := by
  rw [py_int, if_pos h]
  exact Int.floor_nonneg.mpr h

/-- Multiplying a nonnegative integer by a factor of at least one and
truncating does not decrease it. -/
theorem le_py_int_mul (n : ℤ) (k : ℚ) (hn : 0 ≤ n) (hk : 1 ≤ k) :
    n ≤ py_int ((n : ℚ) * k) := by
  have hn' : (0 : ℚ) ≤ (n : ℚ) := by exact_mod_cast hn
  have h0 : (0 : ℚ) ≤ (n : ℚ) * k := mul_nonneg hn' (le_trans zero_le_one hk)
  rw [py_int, if_pos h0, Int.le_floor]
  calc ((n : ℤ) : ℚ) = (n : ℚ) * 1 := by ring
    _ ≤ (n : ℚ) * k := mul_le_mul_of_nonneg_left hk hn'

/-- The clamp stays inside the range whenever the range is nonempty. -/
theorem clamp_mem (v lo hi : ℤ) (h : lo ≤ hi) :
    lo ≤ validate_min_max_range v lo hi ∧ validate_min_max_range v lo hi ≤ hi := by
  unfold validate_min_max_range
  omega

/-- A value below both the input and the upper bound is below the clamp. -/
theorem le_clamp (v lo hi x : ℤ) (hv : x ≤ v) (hx : x ≤ hi) :
    x ≤ validate_min_max_range v lo hi := by
  unfold validate_min_max_range
  omega

/-
C1.
-/

/-- C1 is false on the code: with both estimates at the default 25600 and the
in-range sample 25599, a successful challenge (non-null reply whose SHA-256
equals the stored hash, here witnessed through query_outcome) leaves the
verified estimate at 25600 and raises the probing estimate to 28160, the
clamped truncation of 1.1 times 25600 — neither estimate equals the claimed
25599 + 256 = 25855. -/
theorem validator_success_update_not_additive :
    query_outcome (fun _ => ['h']) ['h'] (some ['d']) = .hashMatch ∧
    possible_chunk ⟨25600, 25600⟩ 25599 ∧
    validate_miners_update MINER_MIN_CHUNKS MINER_MAX_CHUNKS ⟨25600, 25600⟩
      (query_outcome (fun _ => ['h']) ['h'] (some ['d'])) = ⟨25600, 28160⟩ ∧
    (28160 : ℤ) ≠ 25599 + 256 ∧ (25600 : ℤ) ≠ 25599 + 256 := by
  have hlow : py_int ((25600 : ℚ) * (8 / 10)) = 20480 :=
    py_int_eval _ _ (by norm_num) (by norm_num) (by norm_num)
  have hup : py_int ((25600 : ℚ) * (11 / 10)) = 28160 :=
    py_int_eval _ _ (by norm_num) (by norm_num) (by norm_num)
  refine ⟨by decide, ⟨?_, ?_⟩, ?_, by decide, by decide⟩
  · simp [chunk_low, hlow]
  · simp [chunk_high]
  · simp [query_outcome, validate_miners_update, validate_min_max_range, hup,
      MINER_MIN_CHUNKS, MINER_MAX_CHUNKS]

/-- C1 (amended): after a challenge, on a non-null reply whose SHA-256 equals
the stored hash the verified estimate becomes the previous probing estimate
and the probing estimate becomes the clamped truncation of its 1.1 fold; on a
missing reply or a hash mismatch the probing estimate becomes the clamped
truncation of its 0.9 fold and the verified estimate the minimum of the old
verified estimate and the new probing estimate. -/
theorem validator_update_by_outcome (sha : List Char → List Char)
    (expected : List Char) (reply : Option (List Char)) (lo hi : ℤ)
    (s : MinerAlloc) :
    (∀ t, reply = some t → sha t = expected →
      validate_miners_update lo hi s (query_outcome sha expected reply) =
        ⟨s.next,
          validate_min_max_range (py_int ((s.next : ℚ) * (11 / 10))) lo hi⟩) ∧
    (reply = none ∨ (∃ t, reply = some t ∧ sha t ≠ expected) →
      validate_miners_update lo hi s (query_outcome sha expected reply) =
        ⟨min (validate_min_max_range (py_int ((s.next : ℚ) * (9 / 10))) lo hi)
            s.verified,
          validate_min_max_range (py_int ((s.next : ℚ) * (9 / 10))) lo hi⟩) := by
  constructor
  · rintro t rfl hmatch
    simp [query_outcome, hmatch, validate_miners_update]
  · rintro (rfl | ⟨t, rfl, hne⟩)
    · simp [query_outcome, validate_miners_update]
    · simp [query_outcome, hne, validate_miners_update]

/-- Concrete instance of the amended C1: a correct reply at estimates 1000
moves the pair to verified 1000 and probing 1100. -/
theorem validator_update_by_outcome_witness :
    validate_miners_update 256 2560000 ⟨1000, 1000⟩
      (query_outcome (fun _ => []) [] (some [])) = ⟨1000, 1100⟩ := by
  have h := (validator_update_by_outcome (fun _ => []) [] (some [])
    256 2560000 ⟨1000, 1000⟩).1 [] rfl rfl
  rw [h]
  have hp : py_int ((1000 : ℚ) * (11 / 10)) = 1100 :=
    py_int_eval _ _ (by norm_num) (by norm_num) (by norm_num)
  simp [validate_min_max_range, hp]

/-
C2.
-/

/-- C2 is false on the code: with both estimates at 25600 the randint lower
bound is the truncated 0.8 fold 20480, so 20480 is a possible sample, yet it
lies outside the claimed window from max(0, 25600 - 64) to 25599. -/
theorem chunk_sample_outside_claimed_window :
    possible_chunk ⟨25600, 25600⟩ 20480 ∧
    ¬ (max 0 (25600 - 64) ≤ (20480 : ℤ) ∧ (20480 : ℤ) ≤ 25600 - 1) := by
  have hlow : py_int ((25600 : ℚ) * (8 / 10)) = 20480 :=
    py_int_eval _ _ (by norm_num) (by norm_num) (by norm_num)
  refine ⟨⟨?_, ?_⟩, by decide⟩
  · simp [chunk_low, hlow]
  · simp [chunk_high]

/-- C2 (amended): the sampled chunk id is drawn between the code's bounds:
the truncated 0.8 fold of the probing estimate (when the verified estimate
has caught up) or the verified estimate (otherwise) on the left, and the
probing estimate minus one on the right; under the loop invariant every
sample is therefore a valid id below the probing estimate, and a probing
estimate of one forces sample 0. -/
theorem chunk_sample_bounds (s : MinerAlloc) (c : ℤ) (h0 : 0 ≤ s.verified)
    (hle : s.verified ≤ s.next) (hc : possible_chunk s c) :
    0 ≤ c ∧ c ≤ s.next - 1 ∧ (s.next = 1 → c = 0) := by
  obtain ⟨hlo, hhi⟩ := hc
  rw [chunk_high] at hhi
  have hnext : (0 : ℤ) ≤ s.next := le_trans h0 hle
  have hlow0 : 0 ≤ chunk_low s := by
    rw [chunk_low]
    split
    · apply py_int_nonneg
      have : (0 : ℚ) ≤ (s.next : ℚ) := by exact_mod_cast hnext
      positivity
    · exact h0
  exact ⟨le_trans hlow0 hlo, hhi, fun h1 => by omega⟩

/-- Concrete instance of the amended C2: at estimates 25600 the possible
sample 20480 is a valid id below the probing estimate. -/
theorem chunk_sample_bounds_witness :
    (0 : ℤ) ≤ 20480 ∧ (20480 : ℤ) ≤ 25600 - 1 ∧
      ((25600 : ℤ) = 1 → (20480 : ℤ) = 0) := by
  have hlow : py_int ((25600 : ℚ) * (8 / 10)) = 20480 :=
    py_int_eval _ _ (by norm_num) (by norm_num) (by norm_num)
  exact chunk_sample_bounds ⟨25600, 25600⟩ 20480 (by decide) (by decide)
    ⟨by simp [chunk_low, hlow], by simp [chunk_high]⟩

/-
C3.
-/

/-- C3 is false on the code: the ping handler performs no blacklist check, so
a caller absent from the peer directory — whom blacklist would refuse — still
receives the role-identifying answer instead of a rejection. -/
theorem ping_answers_unregistered_caller :
    (blacklist ⟨[], fun _ => false⟩ "outsider").1 = true ∧
    ping_handler "1.1.2" ⟨[], fun _ => false⟩ "outsider" = some "miner-1.1.2" := by
  exact ⟨by decide, rfl⟩

/-- C3 (amended): retrieve and store refuse every caller that is unregistered
or lacks the validator role bit, the blacklist reason being one of the two
stable strings, while ping answers every caller unconditionally with role and
version. -/
theorem rpc_admission_control (mg : PeerDirectory) (caller : String)
    (db : List DBRow) (key : ℕ) (data : String)
    (h : caller ∉ mg.hotkeys ∨ is_validator mg caller = false) :
    (blacklist mg caller = (true, "Unrecognized hotkey") ∨
      blacklist mg caller = (true, "Non-validator hotkey")) ∧
    retrieve_handler mg caller db key = none ∧
    (store_handler mg caller db key data).2 = none ∧
    ∀ version, ping_handler version mg caller = some ("miner-" ++ version) := by
  have hb : blacklist mg caller = (true, "Unrecognized hotkey") ∨
      blacklist mg caller = (true, "Non-validator hotkey") := by
    unfold blacklist
    by_cases hmem : caller ∉ mg.hotkeys
    · rw [if_pos hmem]
      exact Or.inl rfl
    · rw [if_neg hmem]
      rcases h with h | h
      · exact absurd h hmem
      · rw [if_pos h]
        exact Or.inr rfl
  have hb1 : (blacklist mg caller).1 = true := by
    rcases hb with h1 | h1 <;> rw [h1]
  refine ⟨hb, ?_, ?_, fun _ => rfl⟩
  · simp [retrieve_handler, hb1]
  · simp [store_handler, hb1]

/-- Concrete instance of the amended C3: the unregistered caller W is turned
away by retrieve and store with the stable reason, yet answered by ping. -/
theorem rpc_admission_control_witness :
    (blacklist ⟨["V"], fun _ => false⟩ "W" = (true, "Unrecognized hotkey") ∨
      blacklist ⟨["V"], fun _ => false⟩ "W" = (true, "Non-validator hotkey")) ∧
    retrieve_handler ⟨["V"], fun _ => false⟩ "W" [] 0 = none ∧
    (store_handler ⟨["V"], fun _ => false⟩ "W" [] 0 "d").2 = none ∧
    ∀ version, ping_handler version ⟨["V"], fun _ => false⟩ "W" =
      some ("miner-" ++ version) :=
  rpc_admission_control ⟨["V"], fun _ => false⟩ "W" [] 0 "d"
    (Or.inl (by decide))

/-
C4.
-/

/-- C4 names a real code bug: an authorized store call acknowledges with the
requested key while writing nothing. The handler body raises NameError on the
undefined hash_data, the except clause swallows it, the row is not
overwritten, the key 5 beyond the single stored row is not rejected, and the
failure answer FAILED_KEY = -1 — which the client in neurons/test.py checks
for — is never produced. -/
theorem store_acknowledges_without_writing :
    store_handler ⟨["V"], fun _ => true⟩ "V" [⟨"d0", "h0"⟩] 5 "payload"
      = ([⟨"d0", "h0"⟩], some 5) ∧ some (5 : ℤ) ≠ some FAILED_KEY := by
  exact ⟨by decide, by decide⟩

/-
C5.
-/

/-- C5 is false on the code: a hotkey absent from the snapshot is initialized
to the source default 25600, not 128; and a persisted value of 100, below the
configured minimum 256, is restored as the clamped 256, not byte-identically. -/
theorem restore_differs_from_spec_defaults :
    restore_n_chunks [] "A" MINER_MIN_CHUNKS MINER_MAX_CHUNKS = 25600 ∧
    (25600 : ℤ) ≠ 128 ∧
    restore_n_chunks [⟨"B", 100⟩] "B" MINER_MIN_CHUNKS MINER_MAX_CHUNKS = 256 ∧
    (256 : ℤ) ≠ 100 := by
  refine ⟨by decide, by decide, by decide, by decide⟩

/-- C5 (amended): at startup with restore enabled, a hotkey whose first
snapshot record carries a nonzero chunk count within the configured range
resumes with exactly that count, and a hotkey without a record is initialized
to DEFAULT_N_CHUNKS = 25600 clamped into the configured range. -/
theorem restore_roundtrip (old : List PersistedAlloc) (hk : String)
    (lo hi : ℤ) :
    (∀ a, old.find? (fun r => r.miner == hk) = some a → a.n_chunks ≠ 0 →
      lo ≤ a.n_chunks → a.n_chunks ≤ hi →
      restore_n_chunks old hk lo hi = a.n_chunks) ∧
    (old.find? (fun r => r.miner == hk) = none →
      restore_n_chunks old hk lo hi =
        validate_min_max_range DEFAULT_N_CHUNKS lo hi) := by
  constructor
  · intro a hfind hnz hlo hhi
    unfold restore_n_chunks old_n_chunks
    rw [hfind]
    simp only [if_neg hnz]
    unfold validate_min_max_range
    omega
  · intro hfind
    unfold restore_n_chunks old_n_chunks
    rw [hfind]
    simp

/-- Concrete instance of the amended C5: the persisted in-range value 1000 is
restored byte-identically. -/
theorem restore_roundtrip_witness :
    restore_n_chunks [⟨"A", 1000⟩] "A" 256 2560000 = 1000 :=
  (restore_roundtrip [⟨"A", 1000⟩] "A" 256 2560000).1 ⟨"A", 1000⟩
    (by decide) (by decide) (by decide) (by decide)

/-
C6.
-/

/-- Pointwise description of one scoring pass. -/
theorem update_scores_pass_get (scores : List ℚ) (hotkeys : List String)
    (allocs : List VerifiedAlloc) (i : ℕ) (s : ℚ) (hk : String)
    (hs : scores.get? i = some s) (hh : hotkeys.get? i = some hk) :
    (update_scores_pass scores hotkeys allocs).get? i =
      some (ema_alpha * s +
        (1 - ema_alpha) * (allocation_score allocs hk : ℚ)) := by
  induction scores generalizing hotkeys i with
  | nil => simp at hs
  | cons x xs ih =>
    cases hotkeys with
    | nil => simp at hh
    | cons y ys =>
      cases i with
      | zero =>
        simp only [List.get?] at hs hh
        obtain rfl : x = s := by injection hs
        obtain rfl : y = hk := by injection hh
        rfl
      | succ n =>
        simp only [List.get?] at hs hh
        simpa [update_scores_pass] using ih ys n hs hh

/-- C6: each scoring pass replaces score i by 0.9 times score i plus 0.1
times the chunk count of the first verified allocation whose miner hotkey
equals the hotkey of uid i (0 when no record exists), and — whenever the L1
norm reaches the torch eps — the emitted weights are exactly the L1
normalization of the updated score vector. -/
theorem scoring_ema_and_weights (scores : List ℚ) (hotkeys : List String)
    (allocs : List VerifiedAlloc) (i : ℕ) (s : ℚ) (hk : String)
    (hs : scores.get? i = some s) (hh : hotkeys.get? i = some hk)
    (hnorm : (1 : ℚ) / 10 ^ 12 ≤
      ((update_scores_pass scores hotkeys allocs).map fun x => |x|).sum) :
    (update_scores_pass scores hotkeys allocs).get? i =
      some ((9 / 10) * s +
        (1 - 9 / 10) * (allocation_score allocs hk : ℚ)) ∧
    normalize_l1 (update_scores_pass scores hotkeys allocs) =
      (update_scores_pass scores hotkeys allocs).map fun x =>
        x / ((update_scores_pass scores hotkeys allocs).map fun y => |y|).sum := by
  constructor
  · have h := update_scores_pass_get scores hotkeys allocs i s hk hs hh
    rw [h, ema_alpha]
  · unfold normalize_l1
    rw [max_eq_left hnorm]

/-- Concrete instance of C6: one uid with score 1 and a verified record of 10
chunks moves to score 1.9, and the weight vector is the L1 normalization. -/
theorem scoring_ema_and_weights_witness :
    (update_scores_pass [1] ["A"] [⟨"A", 10⟩]).get? 0 =
      some ((9 / 10) * 1 +
        (1 - 9 / 10) * (allocation_score [⟨"A", 10⟩] "A" : ℚ)) ∧
    normalize_l1 (update_scores_pass [1] ["A"] [⟨"A", 10⟩]) =
      (update_scores_pass [1] ["A"] [⟨"A", 10⟩]).map fun x =>
        x / ((update_scores_pass [1] ["A"] [⟨"A", 10⟩]).map fun y => |y|).sum :=
  scoring_ema_and_weights [1] ["A"] [⟨"A", 10⟩] 0 1 "A" rfl rfl
    (by norm_num [update_scores_pass, allocation_score, ema_alpha,
      abs_of_nonneg])

/-
C7.
-/

/-- Facts about the lowercase hex digits: they pass the retrieve-path filter,
they parse back to their value, and none of them is the quote character. -/
theorem hex_digit_spec : ∀ n < 16, is_hex_char (hex_digit n) = true ∧
    hex_val (hex_digit n) = some n ∧ (hex_digit n != quote_char) = true := by
  decide

/-- The backslash is dropped by the retrieve-path filter. -/
theorem not_hex_backslash : is_hex_char backslash_char = false := by decide

/-- The letter x is dropped by the retrieve-path filter. -/
theorem not_hex_x : is_hex_char 'x' = false := by decide

/-- No character of the encoded chunk body is the quote character. -/
theorem encode_body_no_quote (c : List (Fin 256)) :
    ∀ ch ∈ (c.map encode_byte).flatten, (ch != quote_char) = true := by
  intro ch hch
  rw [List.mem_flatten] at hch
  obtain ⟨l, hl, hchl⟩ := hch
  rw [List.mem_map] at hl
  obtain ⟨b, _, rfl⟩ := hl
  have hb := b.isLt
  have h1 := (hex_digit_spec (b.val / 16) (by omega)).2.2
  have h2 := (hex_digit_spec (b.val % 16) (by omega)).2.2
  simp only [encode_byte, List.mem_cons, List.not_mem_nil, or_false] at hchl
  rcases hchl with rfl | rfl | rfl | rfl
  · decide
  · decide
  · exact h1
  · exact h2

/-- takeWhile of a list all of whose members satisfy the predicate, followed
by one element that does not, returns exactly the list. -/
theorem takeWhile_all_append (p : Char → Bool) (l : List Char) (a : Char)
    (hl : ∀ x ∈ l, p x = true) (ha : p a = false) :
    (l ++ [a]).takeWhile p = l := by
  induction l with
  | nil =>
    rw [List.nil_append, List.takeWhile_cons_of_neg (by simp [ha])]
  | cons x xs ih =>
    have hx := hl x (List.mem_cons_self x xs)
    simp only [List.cons_append]
    rw [List.takeWhile_cons_of_pos hx,
      ih fun y hy => hl y (List.mem_cons_of_mem x hy)]

/-- The text between the quotes of an encoded chunk is exactly its body. -/
theorem between_encode (c : List (Fin 256)) :
    between_quotes (encode_chunk c) = (c.map encode_byte).flatten := by
  unfold between_quotes encode_chunk
  rw [List.dropWhile_cons_of_pos (by decide),
    List.dropWhile_cons_of_neg (by decide)]
  rw [List.drop_one, List.tail_cons]
  exact takeWhile_all_append _ _ _ (encode_body_no_quote c) (by decide)

/-- Filtering the encoded body down to hex characters keeps exactly the two
hex digits of every byte, in order. -/
theorem filter_hex_body (c : List (Fin 256)) :
    (c.map encode_byte).flatten.filter is_hex_char =
      (c.map fun b => [hex_digit (b.val / 16), hex_digit (b.val % 16)]).flatten := by
  induction c with
  | nil => rfl
  | cons b bs ih =>
    have hb := b.isLt
    have h1 := (hex_digit_spec (b.val / 16) (by omega)).1
    have h2 := (hex_digit_spec (b.val % 16) (by omega)).1
    simp only [List.map_cons, List.flatten_cons, List.filter_append, ih]
    congr 1
    simp [encode_byte, List.filter, h1, h2, not_hex_backslash, not_hex_x]

/-- Parsing the concatenated hex digit pairs recovers the byte list. -/
theorem from_hex_pairs (c : List (Fin 256)) :
    from_hex ((c.map fun b =>
      [hex_digit (b.val / 16), hex_digit (b.val % 16)]).flatten) = some c := by
  induction c with
  | nil => rfl
  | cons b bs ih =>
    have hb := b.isLt
    have h1 := (hex_digit_spec (b.val / 16) (by omega)).2.1
    have h2 := (hex_digit_spec (b.val % 16) (by omega)).2.1
    have key : 16 * (b.val / 16) + b.val % 16 = b.val := Nat.div_add_mod b.val 16
    simp only [List.map_cons, List.flatten_cons, List.cons_append,
      List.nil_append]
    rw [from_hex, h1, h2, ih]
    simp only [key]
    rw [dif_pos hb]

/-- Decoding inverts encoding on every chunk. -/
theorem decode_encode (c : List (Fin 256)) :
    decode_chunk (encode_chunk c) = some c := by
  unfold decode_chunk
  rw [between_encode, filter_hex_body, from_hex_pairs]

/-- With enough fuel and a positive window, the emitted windows concatenate
back to the input. -/
theorem chunks_go_flatten (cs : ℕ) (hcs : 0 < cs) :
    ∀ fuel bs, bs.length ≤ fuel → (chunks_go cs fuel bs).flatten = bs := by
  intro fuel
  induction fuel with
  | zero =>
    intro bs h
    have hn : bs = [] := List.eq_nil_of_length_eq_zero (by omega)
    subst hn
    rfl
  | succ n ih =>
    intro bs h
    cases bs with
    | nil => rfl
    | cons b tl =>
      simp only [chunks_go, List.flatten_cons]
      rw [ih ((b :: tl).drop cs) (by simp at h ⊢; omega)]
      exact List.take_append_drop cs (b :: tl)

/-- C7: for every byte sequence and positive chunk size, the store-path
textual encoding and the retrieve-path decoding are mutually inverse on every
emitted chunk, and concatenating the decoded chunks in increasing chunk id
order reproduces the input byte-for-byte. -/
theorem sharder_roundtrip (cs : ℕ) (hcs : 0 < cs) (bs : List (Fin 256)) :
    (∀ c ∈ split_chunks cs bs, decode_chunk (encode_chunk c) = some c) ∧
    (split_chunks cs bs).flatten = bs := by
  constructor
  · intro c _
    exact decode_encode c
  · unfold split_chunks
    rw [if_neg (by omega)]
    exact chunks_go_flatten cs hcs bs.length bs le_rfl

/-- Concrete instance of C7: the three bytes 0, 171, 255 in windows of two
round-trip byte-for-byte. -/
theorem sharder_roundtrip_witness :
    (∀ c ∈ split_chunks 2 [(0 : Fin 256), 171, 255],
      decode_chunk (encode_chunk c) = some c) ∧
    (split_chunks 2 [(0 : Fin 256), 171, 255]).flatten = [0, 171, 255] :=
  sharder_roundtrip 2 (by decide) [0, 171, 255]

/-
C8.
-/

/-- C8 is false on the code: with 2 GiB of files already in the DB directory,
a desired allocation of 100 GiB succeeds although only 99 GiB are free — the
space check subtracts the bytes already present before comparing — so the
insufficient-space failure does not occur exactly when the desired bytes
exceed the available bytes. -/
theorem allocate_ignores_used_space :
    (106300440576 : ℚ) < 100 * 1024 * 1024 * 1024 ∧
    allocate 106300440576 2147483648 100 "root" "V" ["A"] =
      Except.ok [⟨"root/DB-V-A", "V", "A", 25600⟩] := by
  constructor
  · norm_num
  · have h : py_int ((100 : ℚ) * 1024 * 1024 * 1024 / ((CHUNK_SIZE : ℤ) : ℚ))
        = 25600 := by
      refine py_int_eval _ _ ?_ ?_ ?_ <;> norm_num [CHUNK_SIZE]
    simp only [allocate]
    rw [if_pos (by norm_num)]
    simp [h]

/-- C8 (amended): the allocation call fails with the insufficient-space error
exactly when the desired bytes minus the bytes already present in the DB
directory exceed the available filesystem bytes; otherwise it returns one
record per hotkey of the directory, all carrying the same chunk count of at
least 1, namely the truncated per-hotkey share divided by CHUNK_SIZE floored
at one. -/
theorem allocate_space_check (available already : ℤ) (gb : ℚ)
    (root own : String) (hotkeys : List String) :
    ((∃ e, allocate available already gb root own hotkeys = Except.error e) ↔
      (available : ℚ) < gb * 1024 * 1024 * 1024 - (already : ℚ)) ∧
    ∀ l, allocate available already gb root own hotkeys = Except.ok l →
      l.map (fun r => r.hotkey) = hotkeys ∧
      ∀ r ∈ l,
        r.n_chunks = max (py_int (gb * 1024 * 1024 * 1024 /
          (hotkeys.length : ℚ) / ((CHUNK_SIZE : ℤ) : ℚ))) 1 ∧
        1 ≤ r.n_chunks := by
  unfold allocate
  by_cases hc : gb * 1024 * 1024 * 1024 - (already : ℚ) ≤ (available : ℚ)
  · rw [if_pos hc]
    constructor
    · constructor
      · rintro ⟨e, he⟩
        cases he
      · intro hlt
        exact absurd hc (not_le.mpr hlt)
    · intro l hl
      cases hl
      constructor
      · induction hotkeys with
        | nil => rfl
        | cons hk tl ih => simpa using ih
      · intro r hr
        rw [List.mem_map] at hr
        obtain ⟨hk, _, rfl⟩ := hr
        exact ⟨rfl, le_max_right _ _⟩
  · rw [if_neg hc]
    constructor
    · constructor
      · intro _
        exact lt_of_not_le fun hle => hc (by linarith)
      · intro _
        exact ⟨"Not enough space", rfl⟩
    · intro l hl
      cases hl

/-- Concrete instance of the amended C8: with nothing free and nothing
already present, a 100 GiB request fails. -/
theorem allocate_space_check_witness :
    ∃ e, allocate 0 0 100 "root" "V" [] = Except.error e :=
  (allocate_space_check 0 0 100 "root" "V" []).1.mpr (by norm_num)

/-
C9.
-/

/-- C9: shard generation is deterministic in the peer pair: two allocation
records that agree on owner hotkey, other hotkey and chunk count — whatever
their db_path — drive the generator to identical rows, in particular to
identical hash columns row-for-row, for every machine-independent PRF and
hash function, because the seed (the table name) is a pure function of the
pair. -/
theorem generator_deterministic (g : GenBinary) (a1 a2 : MinerAllocRecord)
    (hown : a1.own_hotkey = a2.own_hotkey) (hother : a1.hotkey = a2.hotkey)
    (hn : a1.n_chunks = a2.n_chunks) :
    generate_rows g a1 = generate_rows g a2 ∧
    hash_column g a1 = hash_column g a2 := by
  have ht : run_rust_generate_table_name a1 = run_rust_generate_table_name a2 := by
    unfold run_rust_generate_table_name
    rw [hown, hother]
  unfold hash_column generate_rows
  rw [ht, hn]
  exact ⟨rfl, rfl⟩

/-- Concrete instance of C9: two records for the pair O, P with two chunks
but different db paths generate identical rows and hash columns. -/
theorem generator_deterministic_witness :
    generate_rows ⟨fun s _ => s, fun s => s⟩ ⟨"/x", "O", "P", 2⟩ =
      generate_rows ⟨fun s _ => s, fun s => s⟩ ⟨"/y", "O", "P", 2⟩ ∧
    hash_column ⟨fun s _ => s, fun s => s⟩ ⟨"/x", "O", "P", 2⟩ =
      hash_column ⟨fun s _ => s, fun s => s⟩ ⟨"/y", "O", "P", 2⟩ :=
  generator_deterministic ⟨fun s _ => s, fun s => s⟩ ⟨"/x", "O", "P", 2⟩
    ⟨"/y", "O", "P", 2⟩ rfl rfl rfl

/-
C10.
-/

/-- One validate_miners update preserves the loop invariant whenever the
configured range is nonempty and its minimum nonnegative. -/
theorem validate_update_preserves_invariant (lo hi : ℤ) (h0 : 0 ≤ lo)
    (hlh : lo ≤ hi) (s : MinerAlloc) (hI : alloc_invariant lo hi s)
    (o : QueryOutcome) :
    alloc_invariant lo hi (validate_miners_update lo hi s o) := by
  obtain ⟨hvn, hlon, hnhi⟩ := hI
  cases o with
  | noResponse =>
    have hm := clamp_mem (py_int ((s.next : ℚ) * (9 / 10))) lo hi hlh
    exact ⟨min_le_left _ _, hm.1, hm.2⟩
  | hashMismatch =>
    have hm := clamp_mem (py_int ((s.next : ℚ) * (9 / 10))) lo hi hlh
    exact ⟨min_le_left _ _, hm.1, hm.2⟩
  | hashMatch =>
    have hm := clamp_mem (py_int ((s.next : ℚ) * (11 / 10))) lo hi hlh
    have hgrow : s.next ≤ py_int ((s.next : ℚ) * (11 / 10)) :=
      le_py_int_mul s.next (11 / 10) (by omega) (by norm_num)
    exact ⟨le_clamp _ lo hi s.next hgrow hnhi, hm.1, hm.2⟩

/-- The invariant survives any sequence of updates. -/
theorem validate_foldl_preserves_invariant (lo hi : ℤ) (h0 : 0 ≤ lo)
    (hlh : lo ≤ hi) (os : List QueryOutcome) :
    ∀ s, alloc_invariant lo hi s →
      alloc_invariant lo hi (os.foldl (validate_miners_update lo hi) s) := by
  induction os with
  | nil => exact fun s hI => hI
  | cons o os ih =>
    intro s hI
    exact ih _ (validate_update_preserves_invariant lo hi h0 hlh s hI o)

/-- C10: the verified estimate never exceeds the probing estimate: when both
start equal and inside the configured range (with nonnegative minimum and
nonempty range), after every sequence of validate_miners updates the verified
estimate is still at most the probing estimate. -/
theorem verified_never_exceeds_probing (lo hi : ℤ) (h0 : 0 ≤ lo)
    (hlh : lo ≤ hi) (s0 : MinerAlloc) (heq : s0.verified = s0.next)
    (hlo : lo ≤ s0.next) (hhi : s0.next ≤ hi) (os : List QueryOutcome) :
    (os.foldl (validate_miners_update lo hi) s0).verified ≤
      (os.foldl (validate_miners_update lo hi) s0).next :=
  (validate_foldl_preserves_invariant lo hi h0 hlh os s0
    ⟨le_of_eq heq, hlo, hhi⟩).1

/-- Concrete instance of C10: from the default state, a success followed by a
no-response keeps verified at most probing. -/
theorem verified_never_exceeds_probing_witness :
    (([QueryOutcome.hashMatch, QueryOutcome.noResponse]).foldl
      (validate_miners_update 256 2560000) ⟨25600, 25600⟩).verified ≤
    (([QueryOutcome.hashMatch, QueryOutcome.noResponse]).foldl
      (validate_miners_update 256 2560000) ⟨25600, 25600⟩).next :=
  verified_never_exceeds_probing 256 2560000 (by decide) (by decide)
    ⟨25600, 25600⟩ rfl (by decide) (by decide)
    [QueryOutcome.hashMatch, QueryOutcome.noResponse]
